import Mathlib

/-!
# Verification of the ternary-constraint 432-element-group repository

A shallow embedding of the repository's finite-field matrix core:
enumeration of 3×3 matrices over F₃, the invertibility / row-stochastic /
doubly-stochastic / kernel-normalization predicates, the breadth-first
group-closure search, matrix-order computation, the minimality check for
generating tuples, and the operator-pool loader.

Matrices are embedded as flat row-major lists of nine naturals
(the Python code flattens `numpy` 3×3 arrays to 9-tuples for hashing,
and all arithmetic is performed modulo 3).
-/

abbrev Matrix3 := List Nat

/-- The field elements of F₃, i.e. the list `[0,1,2]` iterated by
`itertools.product([0,1,2], repeat=9)` in `generate_gl3_f3`. -/
def f3 : List Nat := [0, 1, 2]

/-- All raw 3×3 matrices whose first two (row-major) entries are `a` and `b`:
one chunk (of 3^7 = 2187 matrices) of the full 3^9 enumeration. -/
def enum_tail (a b : Nat) : List Matrix3 :=
  f3.flatMap fun c => f3.flatMap fun d => f3.flatMap fun e =>
  f3.flatMap fun f => f3.flatMap fun g => f3.flatMap fun h =>
  f3.map fun i => [a, b, c, d, e, f, g, h, i]

/-- All 3^9 = 19683 raw 3×3 matrices with entries in {0,1,2}, in the
row-major lexicographic order produced by `itertools.product`. -/
def allRawMatrices : List Matrix3 :=
  f3.flatMap fun a => f3.flatMap fun b => enum_tail a b

/-- Entry of a flattened matrix, as an integer (row i, column j sits at
index `3*i+j`). -/
def geti (M : Matrix3) (k : Nat) : Int := (M.getD k 0 : Int)

/-- The exact integer determinant of a 3×3 matrix by the explicit cofactor
expansion along the first row. -/
def det3_int (M : Matrix3) : Int :=
  geti M 0 * (geti M 4 * geti M 8 - geti M 5 * geti M 7)
    - geti M 1 * (geti M 3 * geti M 8 - geti M 5 * geti M 6)
    + geti M 2 * (geti M 3 * geti M 7 - geti M 4 * geti M 6)

/-- `int(np.round(np.linalg.det(M))) % 3 != 0` in `generate_gl3_f3`:
the determinant is an integer and Python's `%` returns a nonnegative
remainder, which is `Int.emod` here. -/
def isInvertible (M : Matrix3) : Bool := det3_int M % 3 != 0

/-- `generate_gl3_f3` from the test suite: all invertible matrices among
the 19683 raw ones, i.e. GL(3,F₃). -/
def generate_gl3_f3 : List Matrix3 := allRawMatrices.filter isInvertible

/-- `sum(M[i,:])`: the sum of the entries of row `i`. -/
def rowSum (M : Matrix3) (i : Nat) : Nat :=
  M.getD (3 * i) 0 + M.getD (3 * i + 1) 0 + M.getD (3 * i + 2) 0

/-- `sum(M[:,j])`: the sum of the entries of column `j`. -/
def colSum (M : Matrix3) (j : Nat) : Nat :=
  M.getD j 0 + M.getD (3 + j) 0 + M.getD (6 + j) 0

/-- `check_conservation`: every row sums to 1 mod 3 (row-stochastic). -/
def check_conservation (M : Matrix3) : Bool :=
  (List.range 3).all fun i => rowSum M i % 3 == 1

/-- The column half of `check_row_and_col`: every column sums to 1 mod 3. -/
def colsOK (M : Matrix3) : Bool :=
  (List.range 3).all fun j => colSum M j % 3 == 1

/-- `check_row_and_col`: every row AND every column sums to 1 mod 3
(doubly stochastic). -/
def check_row_and_col (M : Matrix3) : Bool :=
  check_conservation M && colsOK M

/-- `H_basis` from `check_normalizes_h`: the two spanning vectors of the
kernel of the all-ones covector. -/
def H_basis : List (List Nat) := [[1, 2, 0], [0, 1, 2]]

/-- `(M @ v) % 3`: matrix-vector product reduced mod 3. -/
def mulVec_mod3 (M : Matrix3) (v : List Nat) : List Nat :=
  let m := fun k => M.getD k 0
  let w := fun k => v.getD k 0
  [(m 0 * w 0 + m 1 * w 1 + m 2 * w 2) % 3,
   (m 3 * w 0 + m 4 * w 1 + m 5 * w 2) % 3,
   (m 6 * w 0 + m 7 * w 1 + m 8 * w 2) % 3]

/-- `(a * H_basis[0] + b * H_basis[1]) % 3` from `check_normalizes_h`. -/
def lin_combo (a b : Nat) : List Nat :=
  List.zipWith (fun x y => (a * x + b * y) % 3) (H_basis.getD 0 []) (H_basis.getD 1 [])

/-- `check_normalizes_h`: `M` preserves the kernel `H = ker([1,1,1])`,
checked on the two basis vectors and then on all nonzero linear
combinations `a*b₁ + b*b₂` (the `(0,0)` combination is skipped by
`continue` in the source). -/
def check_normalizes_h (M : Matrix3) : Bool :=
  (H_basis.all fun v => (mulVec_mod3 M v).sum % 3 == 0) &&
  (f3.all fun a => f3.all fun b =>
    (a == 0 && b == 0) || ((mulVec_mod3 M (lin_combo a b)).sum % 3 == 0))

/-- The reduced kernel-preservation check described by the spec's design
note: test only the two basis vectors and rely on linearity. -/
def check_normalizes_h_basis (M : Matrix3) : Bool :=
  H_basis.all fun v => (mulVec_mod3 M v).sum % 3 == 0

/-- The 432-element row-stochastic stratum: GL(3,F₃) filtered by
`check_conservation`. -/
def ops_432 : List Matrix3 := generate_gl3_f3.filter check_conservation

/-- The 54-element doubly-stochastic stratum: GL(3,F₃) filtered by
`check_row_and_col`. -/
def ops_54 : List Matrix3 := generate_gl3_f3.filter check_row_and_col

/-- The 108-element stratum: GL(3,F₃) filtered by conservation together
with the kernel-normalization predicate. -/
def ops_108 : List Matrix3 :=
  generate_gl3_f3.filter fun M => check_conservation M && check_normalizes_h M

/-- `np.eye(3, dtype=int)` flattened. -/
def identity3 : Matrix3 := [1, 0, 0, 0, 1, 0, 0, 0, 1]

/-- `matrix_multiply_mod3` / `matrix_mult_mod3`: the 3×3 matrix product
with every entry reduced mod 3. -/
def matrix_mult_mod3 (A B : Matrix3) : Matrix3 :=
  let a := fun k => A.getD k 0
  let b := fun k => B.getD k 0
  [(a 0 * b 0 + a 1 * b 3 + a 2 * b 6) % 3,
   (a 0 * b 1 + a 1 * b 4 + a 2 * b 7) % 3,
   (a 0 * b 2 + a 1 * b 5 + a 2 * b 8) % 3,
   (a 3 * b 0 + a 4 * b 3 + a 5 * b 6) % 3,
   (a 3 * b 1 + a 4 * b 4 + a 5 * b 7) % 3,
   (a 3 * b 2 + a 4 * b 5 + a 5 * b 8) % 3,
   (a 6 * b 0 + a 7 * b 3 + a 8 * b 6) % 3,
   (a 6 * b 1 + a 7 * b 4 + a 8 * b 7) % 3,
   (a 6 * b 2 + a 7 * b 5 + a 8 * b 8) % 3]

/-- Iterated product mod 3: `matpow M n` is Mⁿ (with M⁰ the identity). -/
def matpow (M : Matrix3) : Nat → Matrix3
  | 0 => identity3
  | n + 1 => matrix_mult_mod3 (matpow M n) M

/-- Inner loop of `compute_order` / `compute_matrix_order`: starting from
`current = M`, repeatedly compare `current % 3` against the identity and
multiply by `M`, up to the remaining `fuel` steps, counting from `n`. -/
def compute_order_loop (M : Matrix3) : Matrix3 → Nat → Nat → Option Nat
  | _, 0, _ => none
  | current, fuel + 1, n =>
    if current.map (· % 3) = identity3 then some n
    else compute_order_loop M (matrix_mult_mod3 current M) fuel (n + 1)

/-- `compute_order` from `test_group_structures.py`: the least exponent
`n ∈ [1,20]` with `Mⁿ ≡ I (mod 3)`, or the sentinel `none` when the cap
of 20 repeated multiplications is exceeded. -/
def compute_order (M : Matrix3) : Option Nat := compute_order_loop M M 20 1

/-- Boolean check that `compute_order` succeeds on `M`, returns an order
in {1,2,3,6} and that this order is the least positive exponent with
`Mⁿ = I`. -/
def orderOkBool (M : Matrix3) : Bool :=
  match compute_order M with
  | none => false
  | some n =>
    [1, 2, 3, 6].contains n && (matpow M n == identity3) &&
      ((List.range n).all fun m => m == 0 || matpow M m != identity3)

/-! ## Breadth-first group closure (`generate_group`) -/

/-- One `group.add(x)` step on the deduplicated closure list: Python's
`set.add`, with insertion order made explicit. -/
def addSeed (g : List Matrix3) (x : Matrix3) : List Matrix3 :=
  if x ∈ g then g else g ++ [x]

/-- The closure set just before the BFS loop: the identity followed by the
distinct generators (`group = {I} ∪ generators`). -/
def init_group (generators : List Matrix3) : List Matrix3 :=
  generators.foldl addSeed [identity3]

/-- `if prod_tuple not in group: group.add(prod); if len(group) >= max_size:
break; to_process.append(prod)`.  Returns the updated closure, the updated
queue, and whether the two-product inner loop was exited by `break`. -/
def tryAdd (max_size : Nat) (group queue : List Matrix3) (prod : Matrix3) :
    List Matrix3 × List Matrix3 × Bool :=
  if prod ∈ group then (group, queue, false)
  else if max_size ≤ (group ++ [prod]).length then (group ++ [prod], queue, true)
  else (group ++ [prod], queue ++ [prod], false)

/-- `for prod in [prod1, prod2]: ...` — try `current·elem` and then, unless
the size cap broke out of the two-element loop, `elem·current`. -/
def processElem (max_size : Nat) (current : Matrix3) (group queue : List Matrix3)
    (elem : Matrix3) : List Matrix3 × List Matrix3 :=
  match tryAdd max_size group queue (matrix_mult_mod3 current elem) with
  | (g1, q1, true) => (g1, q1)
  | (g1, q1, false) =>
    match tryAdd max_size g1 q1 (matrix_mult_mod3 elem current) with
    | (g2, q2, _) => (g2, q2)

/-- `for elem_tuple in list(group): ...` — walk the snapshot of the closure
taken when `current` was dequeued, threading the live closure and queue. -/
def processSnapshot (max_size : Nat) (current : Matrix3) :
    List Matrix3 → List Matrix3 → List Matrix3 → List Matrix3 × List Matrix3
  | [], group, queue => (group, queue)
  | elem :: rest, group, queue =>
    match processElem max_size current group queue elem with
    | (g, q) => processSnapshot max_size current rest g q

/-- The `while to_process and len(group) < max_size:` loop.  The `fuel`
argument is a structural-recursion bound; `generate_group` supplies
`|generators| + max_size + 1`, which dominates the number of iterations
(every iteration pops one queue entry, and at most `max_size` entries are
ever appended, each alongside a strict growth of the closure). -/
def generate_group_loop (max_size : Nat) :
    Nat → List Matrix3 → List Matrix3 → List Matrix3 → List Matrix3
  | 0, _, group, _ => group
  | _ + 1, [], group, _ => group
  | fuel + 1, current :: rest, group, processed =>
    if max_size ≤ group.length then group
    else if current ∈ processed then
      generate_group_loop max_size fuel rest group processed
    else
      match processSnapshot max_size current group group rest with
      | (g, q) => generate_group_loop max_size fuel q g (current :: processed)

/-- `generate_group` from `test_minimal_generation.py` (the same algorithm
as `generate_group_from_pair`): breadth-first closure of the generators
under mod-3 multiplication, bounded by `max_size`. -/
def generate_group (generators : List Matrix3) (max_size : Nat) : List Matrix3 :=
  generate_group_loop max_size (generators.length + max_size + 1) generators
    (init_group generators) []

/-- Instrumented variant of the closure loop that also reports whether the
loop exited with a nonempty queue because the size cap was reached
(`true` = truncated) rather than by exhausting the queue (`false`). -/
def generate_group_loop_flagged (max_size : Nat) :
    Nat → List Matrix3 → List Matrix3 → List Matrix3 → List Matrix3 × Bool
  | 0, queue, group, _ => (group, !queue.isEmpty)
  | _ + 1, [], group, _ => (group, false)
  | fuel + 1, current :: rest, group, processed =>
    if max_size ≤ group.length then (group, true)
    else if current ∈ processed then
      generate_group_loop_flagged max_size fuel rest group processed
    else
      match processSnapshot max_size current group group rest with
      | (g, q) => generate_group_loop_flagged max_size fuel q g (current :: processed)

/-- `generate_group` instrumented with the truncated/complete distinction;
its first component is exactly what the Python function returns. -/
def generate_group_flagged (generators : List Matrix3) (max_size : Nat) :
    List Matrix3 × Bool :=
  generate_group_loop_flagged max_size (generators.length + max_size + 1) generators
    (init_group generators) []

/-- `verify_minimality` from `test_minimal_generation.py`, over an explicit
operator pool (`self.operators`): a tuple of pool indices is minimal iff it
generates exactly 432 elements and no one-element-removed reduction does. -/
def verify_minimality (pool : List Matrix3) (t : List Nat) : Bool :=
  if t.length == 1 then true
  else
    let full := generate_group (t.map fun i => pool.getD i []) 432
    if full.length != 432 then false
    else
      (List.range t.length).all fun i =>
        (generate_group ((t.eraseIdx i).map fun j => pool.getD j []) 432).length != 432

/-- The six fallback operators returned by `load_operators_108` when no
CSV file is found ("the known 6 generators from E46"). -/
def e46_operators : List Matrix3 :=
  [[0, 1, 0, 0, 2, 2, 1, 0, 0],
   [0, 1, 0, 0, 2, 2, 1, 2, 1],
   [0, 1, 0, 2, 0, 2, 1, 0, 0],
   [1, 0, 0, 1, 2, 1, 0, 1, 0],
   [1, 0, 0, 2, 1, 1, 0, 1, 0],
   [2, 1, 1, 2, 0, 2, 1, 0, 0]]

/-! ## The operator-pool loader (`load_operators_108`)

A record of the CSV file is one data line already split at commas; each
field is modelled as `some k` when Python's `int()` succeeds on it with
value `k`, and `none` when `int()` raises `ValueError`.  The loader walks
`lines[1:]`: a record with fewer than 10 fields is skipped, otherwise the
nine entries `parts[1..9]` are converted with `int()` — an unparseable
field raises, which aborts the whole load (modelled as `Except.error`). -/

/-- One record: `none` = skipped (fewer than 10 fields), `some (error)` =
`int()` raised, `some (ok m)` = a 3×3 matrix built from fields 1..9. -/
def parse_record (parts : List (Option Int)) : Option (Except Unit (List Int)) :=
  if 10 ≤ parts.length then
    some (match ((parts.drop 1).take 9).mapM id with
          | some vals => Except.ok vals
          | none => Except.error ())
  else none

/-- `load_operators_108` on the data lines of a pool file: accumulates the
parsed matrices, skipping short records, and aborting on the first record
whose `int()` conversion fails. -/
def load_operators_108 (records : List (List (Option Int))) :
    Except Unit (List (List Int)) :=
  records.foldl
    (fun acc rec =>
      match acc with
      | Except.error e => Except.error e
      | Except.ok ops =>
        match parse_record rec with
        | none => Except.ok ops
        | some (Except.error _) => Except.error ()
        | some (Except.ok vals) => Except.ok (ops ++ [vals]))
    (Except.ok [])

/-! ## Single-pass packed counting over the enumeration

To keep kernel evaluation shallow, the 19683-element enumeration is
processed in nine 2187-element chunks, and all per-matrix statistics are
collected in one traversal by a single weight function whose value packs
the individual counts at separate powers of two.  The nested matches make
the kernel evaluate each predicate once per matrix. -/

/-- Packed per-matrix statistics:
`1` (total count), `2^16·[invertible]`, `2^32·[invertible ∧ conservation]`,
`2^48·[invertible ∧ conservation ∧ normalizes]`,
`2^64·[invertible ∧ row&col]`, `2^80·[invertible ∧ row&col ∧ ¬orderOk]`. -/
def weight (M : Matrix3) : Nat :=
  match isInvertible M with
  | false => 1
  | true =>
    match check_conservation M with
    | false => 1 + 2 ^ 16
    | true =>
      match check_normalizes_h M with
      | false =>
        match colsOK M with
        | false => 1 + 2 ^ 16 + 2 ^ 32
        | true =>
          match orderOkBool M with
          | true => 1 + 2 ^ 16 + 2 ^ 32 + 2 ^ 64
          | false => 1 + 2 ^ 16 + 2 ^ 32 + 2 ^ 64 + 2 ^ 80
      | true =>
        match colsOK M with
        | false => 1 + 2 ^ 16 + 2 ^ 32 + 2 ^ 48
        | true =>
          match orderOkBool M with
          | true => 1 + 2 ^ 16 + 2 ^ 32 + 2 ^ 48 + 2 ^ 64
          | false => 1 + 2 ^ 16 + 2 ^ 32 + 2 ^ 48 + 2 ^ 64 + 2 ^ 80

/-- Tail-recursive weight accumulator whose accumulator is forced to a
numeral at every step, so that kernel reduction runs in constant stack. -/
def sumW (f : Matrix3 → Nat) : List Matrix3 → Nat → Nat
  | [], acc => acc
  | M :: rest, acc =>
    match f M with
    | 0 => sumW f rest acc
    | w + 1 =>
      match acc with
      | 0 => sumW f rest (w + 1)
      | a + 1 => sumW f rest (a + w + 2)

/-- `1` for `true`, `0` for `false`. -/
def b2n (b : Bool) : Nat := bif b then 1 else 0

/-- The combined predicate cut out of `allRawMatrices` by the
`generate_gl3_f3` filter followed by the conservation filter. -/
def p432 (M : Matrix3) : Bool := check_conservation M && isInvertible M

/-- The combined predicate for the 108-element stratum over the raw
enumeration. -/
def p108 (M : Matrix3) : Bool :=
  (check_conservation M && check_normalizes_h M) && isInvertible M

/-- The combined predicate for the 54-element stratum over the raw
enumeration. -/
def p54 (M : Matrix3) : Bool := check_row_and_col M && isInvertible M

/-- Doubly-stochastic invertible matrices violating the order property —
the packed pass certifies there are none. -/
def pOrdBad (M : Matrix3) : Bool :=
  (check_row_and_col M && isInvertible M) && !orderOkBool M

theorem sumW_eq (f : Matrix3 → Nat) :
    ∀ (l : List Matrix3) (acc : Nat), sumW f l acc = acc + (l.map f).sum := by
  intro l
  induction l with
  | nil => intro acc; simp [sumW]
  | cons M rest ih =>
    intro acc
    rcases hf : f M with _ | w
    · simp [sumW, hf, ih]
    · cases acc with
      | zero => simp [sumW, hf, ih]
      | succ a => simp [sumW, hf, ih]; omega

theorem weight_eq (M : Matrix3) :
    weight M =
      1 + 2 ^ 16 * b2n (isInvertible M) + 2 ^ 32 * b2n (p432 M) +
        2 ^ 48 * b2n (p108 M) + 2 ^ 64 * b2n (p54 M) + 2 ^ 80 * b2n (pOrdBad M) := by
  cases hi : isInvertible M <;> cases hc : check_conservation M <;>
    cases hn : check_normalizes_h M <;> cases hcol : colsOK M <;>
      cases ho : orderOkBool M <;>
        simp [weight, b2n, p432, p108, p54, pOrdBad, check_row_and_col,
          hi, hc, hn, hcol, ho]

theorem sum_map_weight :
    ∀ l : List Matrix3,
      (l.map weight).sum =
        l.length + 2 ^ 16 * (l.filter isInvertible).length +
          2 ^ 32 * (l.filter p432).length + 2 ^ 48 * (l.filter p108).length +
          2 ^ 64 * (l.filter p54).length + 2 ^ 80 * (l.filter pOrdBad).length := by
  intro l
  induction l with
  | nil => simp
  | cons M rest ih =>
    simp only [List.map_cons, List.sum_cons, List.length_cons, List.filter_cons, ih,
      weight_eq M]
    cases h1 : isInvertible M <;> cases h2 : p432 M <;> cases h3 : p108 M <;>
      cases h4 : p54 M <;> cases h5 : pOrdBad M <;> simp [b2n] <;> omega

/-! ### A destructured fast path for kernel evaluation

`weightD` computes the same packed statistics from the nine entries of a
matrix directly, avoiding repeated list indexing, and `weightFast` is
proved pointwise equal to `weight`.  The kernel chunk evaluations run on
`weightFast`. -/

/-- The mod-3 determinant on explicit entries: the cofactor expansion with
the subtracted terms replaced by `2·(...)`, valid mod 3. -/
def detD (a b c d e f g h i : Nat) : Nat :=
  (a * e * i + b * f * g + c * d * h + 2 * (a * f * h + b * d * i + c * e * g)) % 3

/-- Row sums on explicit entries. -/
def rowsD (a b c d e f g h i : Nat) : Bool :=
  (a + b + c) % 3 == 1 && ((d + e + f) % 3 == 1 && (g + h + i) % 3 == 1)

/-- Column sums on explicit entries. -/
def colsD (a b c d e f g h i : Nat) : Bool :=
  (a + d + g) % 3 == 1 && ((b + e + h) % 3 == 1 && (c + f + i) % 3 == 1)

/-- `sum((M @ v) % 3) % 3 == 0` on explicit entries. -/
def svec (a b c d e f g h i v0 v1 v2 : Nat) : Bool :=
  ((a * v0 + b * v1 + c * v2) % 3 + ((d * v0 + e * v1 + f * v2) % 3 +
    (g * v0 + h * v1 + i * v2) % 3)) % 3 == 0

/-- `check_normalizes_h` on explicit entries: the two basis vectors
followed by the eight nonzero linear combinations, precomputed. -/
def normD (a b c d e f g h i : Nat) : Bool :=
  svec a b c d e f g h i 1 2 0 && (svec a b c d e f g h i 0 1 2 &&
  (svec a b c d e f g h i 0 1 2 && (svec a b c d e f g h i 0 2 1 &&
  (svec a b c d e f g h i 1 2 0 && (svec a b c d e f g h i 1 0 2 &&
  (svec a b c d e f g h i 1 1 1 && (svec a b c d e f g h i 2 1 0 &&
  (svec a b c d e f g h i 2 2 2 && svec a b c d e f g h i 2 0 1))))))))

theorem inv_explicit (a b c d e f g h i : Nat) :
    isInvertible [a, b, c, d, e, f, g, h, i] = (detD a b c d e f g h i != 0) := by
  have hdet : det3_int [a, b, c, d, e, f, g, h, i] =
      ((a * e * i + b * f * g + c * d * h : Nat) : Int) -
      ((a * f * h + b * d * i + c * e * g : Nat) : Int) := by
    simp [det3_int, geti]
    ring
  have h3 : det3_int [a, b, c, d, e, f, g, h, i] % 3 =
      ((detD a b c d e f g h i : Nat) : Int) := by
    rw [hdet, detD]
    generalize (a * e * i + b * f * g + c * d * h : Nat) = p
    generalize (a * f * h + b * d * i + c * e * g : Nat) = n
    omega
  rw [isInvertible, h3]
  rcases h : detD a b c d e f g h i with _ | k <;> simp [h] <;> omega

theorem rows_explicit (a b c d e f g h i : Nat) :
    check_conservation [a, b, c, d, e, f, g, h, i] = rowsD a b c d e f g h i := by
  simp [check_conservation, rowSum, rowsD, List.all]

theorem cols_explicit (a b c d e f g h i : Nat) :
    colsOK [a, b, c, d, e, f, g, h, i] = colsD a b c d e f g h i := by
  simp [colsOK, colSum, colsD, List.all]

theorem norm_explicit (a b c d e f g h i : Nat) :
    check_normalizes_h [a, b, c, d, e, f, g, h, i] = normD a b c d e f g h i := by
  simp [check_normalizes_h, H_basis, f3, mulVec_mod3, lin_combo, normD, svec, List.all,
    Bool.and_assoc]

/-- `weight` on explicit entries. -/
def weightD (a b c d e f g h i : Nat) : Nat :=
  match detD a b c d e f g h i with
  | 0 => 1
  | _ + 1 =>
    match rowsD a b c d e f g h i with
    | false => 1 + 2 ^ 16
    | true =>
      match normD a b c d e f g h i with
      | false =>
        match colsD a b c d e f g h i with
        | false => 1 + 2 ^ 16 + 2 ^ 32
        | true =>
          match orderOkBool [a, b, c, d, e, f, g, h, i] with
          | true => 1 + 2 ^ 16 + 2 ^ 32 + 2 ^ 64
          | false => 1 + 2 ^ 16 + 2 ^ 32 + 2 ^ 64 + 2 ^ 80
      | true =>
        match colsD a b c d e f g h i with
        | false => 1 + 2 ^ 16 + 2 ^ 32 + 2 ^ 48
        | true =>
          match orderOkBool [a, b, c, d, e, f, g, h, i] with
          | true => 1 + 2 ^ 16 + 2 ^ 32 + 2 ^ 48 + 2 ^ 64
          | false => 1 + 2 ^ 16 + 2 ^ 32 + 2 ^ 48 + 2 ^ 64 + 2 ^ 80

/-- `weight`, taking the destructured fast path on well-formed matrices. -/
def weightFast (M : Matrix3) : Nat :=
  match M with
  | [a, b, c, d, e, f, g, h, i] => weightD a b c d e f g h i
  | _ => weight M

theorem weightFast_eq (M : Matrix3) : weightFast M = weight M := by
  match M with
  | [a, b, c, d, e, f, g, h, i] =>
    show weightD a b c d e f g h i = weight [a, b, c, d, e, f, g, h, i]
    rw [weight, inv_explicit, rows_explicit, cols_explicit, norm_explicit]
    rw [weightD]
    rcases detD a b c d e f g h i with _ | k <;>
      cases rowsD a b c d e f g h i <;>
        cases normD a b c d e f g h i <;>
          cases colsD a b c d e f g h i <;>
            cases orderOkBool [a, b, c, d, e, f, g, h, i] <;> simp
  | [] => rfl
  | [a] => rfl
  | [a, b] => rfl
  | [a, b, c] => rfl
  | [a, b, c, d] => rfl
  | [a, b, c, d, e] => rfl
  | [a, b, c, d, e, f] => rfl
  | [a, b, c, d, e, f, g] => rfl
  | [a, b, c, d, e, f, g, h] => rfl
  | a :: b :: c :: d :: e :: f :: g :: h :: i :: j :: rest => rfl

theorem sumW_congr (f g : Matrix3 -> Nat) (hfg : forall M, f M = g M) :
    forall (l : List Matrix3) (acc : Nat), sumW f l acc = sumW g l acc := by
  intro l
  induction l with
  | nil => intro acc; rfl
  | cons M rest ih =>
    intro acc
    rw [sumW, sumW, hfg M]
    cases g M with
    | zero => exact ih acc
    | succ w => cases acc <;> exact ih _

/-! ### Kernel evaluation of the packed pass, chunk by chunk -/

set_option maxRecDepth 40000 in
set_option maxHeartbeats 8000000 in
theorem chunk_w_00 : sumW weightFast (enum_tail 0 0) 0 = 110683842348192893067 := by decide

set_option maxRecDepth 40000 in
set_option maxHeartbeats 8000000 in
theorem chunk_w_01 : sumW weightFast (enum_tail 0 1) 0 = 110683842348221204619 := by decide

set_option maxRecDepth 40000 in
set_option maxHeartbeats 8000000 in
theorem chunk_w_02 : sumW weightFast (enum_tail 0 2) 0 = 110683842348221204619 := by decide

set_option maxRecDepth 40000 in
set_option maxHeartbeats 8000000 in
theorem chunk_w_10 : sumW weightFast (enum_tail 1 0) 0 = 110683842348221204619 := by decide

set_option maxRecDepth 40000 in
set_option maxHeartbeats 8000000 in
theorem chunk_w_11 : sumW weightFast (enum_tail 1 1) 0 = 110683842348221204619 := by decide

set_option maxRecDepth 40000 in
set_option maxHeartbeats 8000000 in
theorem chunk_w_12 : sumW weightFast (enum_tail 1 2) 0 = 110683842348221204619 := by decide

set_option maxRecDepth 40000 in
set_option maxHeartbeats 8000000 in
theorem chunk_w_20 : sumW weightFast (enum_tail 2 0) 0 = 110683842348221204619 := by decide

set_option maxRecDepth 40000 in
set_option maxHeartbeats 8000000 in
theorem chunk_w_21 : sumW weightFast (enum_tail 2 1) 0 = 110683842348221204619 := by decide

set_option maxRecDepth 40000 in
set_option maxHeartbeats 8000000 in
theorem chunk_w_22 : sumW weightFast (enum_tail 2 2) 0 = 110683842348221204619 := by decide

set_option maxRecDepth 40000 in
set_option maxHeartbeats 2000000 in
theorem chunk_len_00 : sumW (fun _ => 1) (enum_tail 0 0) 0 = 2187 := by decide

set_option maxRecDepth 40000 in
set_option maxHeartbeats 2000000 in
theorem chunk_len_01 : sumW (fun _ => 1) (enum_tail 0 1) 0 = 2187 := by decide

set_option maxRecDepth 40000 in
set_option maxHeartbeats 2000000 in
theorem chunk_len_02 : sumW (fun _ => 1) (enum_tail 0 2) 0 = 2187 := by decide

set_option maxRecDepth 40000 in
set_option maxHeartbeats 2000000 in
theorem chunk_len_10 : sumW (fun _ => 1) (enum_tail 1 0) 0 = 2187 := by decide

set_option maxRecDepth 40000 in
set_option maxHeartbeats 2000000 in
theorem chunk_len_11 : sumW (fun _ => 1) (enum_tail 1 1) 0 = 2187 := by decide

set_option maxRecDepth 40000 in
set_option maxHeartbeats 2000000 in
theorem chunk_len_12 : sumW (fun _ => 1) (enum_tail 1 2) 0 = 2187 := by decide

set_option maxRecDepth 40000 in
set_option maxHeartbeats 2000000 in
theorem chunk_len_20 : sumW (fun _ => 1) (enum_tail 2 0) 0 = 2187 := by decide

set_option maxRecDepth 40000 in
set_option maxHeartbeats 2000000 in
theorem chunk_len_21 : sumW (fun _ => 1) (enum_tail 2 1) 0 = 2187 := by decide

set_option maxRecDepth 40000 in
set_option maxHeartbeats 2000000 in
theorem chunk_len_22 : sumW (fun _ => 1) (enum_tail 2 2) 0 = 2187 := by decide

theorem sum_map_one (l : List Matrix3) : (l.map fun _ => (1 : Nat)).sum = l.length := by
  induction l with
  | nil => simp
  | cons M rest ih => simp [ih]; omega

theorem chunk_length (a b : Nat) (v : Nat) (hv : sumW (fun _ => 1) (enum_tail a b) 0 = v) :
    (enum_tail a b).length = v := by
  rw [sumW_eq] at hv
  rw [← sum_map_one]
  omega

theorem chunk_wsum (a b : Nat) (v : Nat) (hv : sumW weightFast (enum_tail a b) 0 = v) :
    ((enum_tail a b).map weight).sum = v := by
  rw [sumW_congr weightFast weight weightFast_eq, sumW_eq] at hv
  omega

theorem allRaw_split :
    allRawMatrices =
      (enum_tail 0 0 ++ (enum_tail 0 1 ++ enum_tail 0 2)) ++
      ((enum_tail 1 0 ++ (enum_tail 1 1 ++ enum_tail 1 2)) ++
       (enum_tail 2 0 ++ (enum_tail 2 1 ++ enum_tail 2 2))) := by
  simp [allRawMatrices, f3, List.flatMap_cons, List.flatMap_nil]

theorem allRaw_length : allRawMatrices.length = 19683 := by
  rw [allRaw_split]
  simp only [List.length_append]
  rw [chunk_length 0 0 _ chunk_len_00, chunk_length 0 1 _ chunk_len_01,
    chunk_length 0 2 _ chunk_len_02, chunk_length 1 0 _ chunk_len_10,
    chunk_length 1 1 _ chunk_len_11, chunk_length 1 2 _ chunk_len_12,
    chunk_length 2 0 _ chunk_len_20, chunk_length 2 1 _ chunk_len_21,
    chunk_length 2 2 _ chunk_len_22]

theorem allRaw_weight_sum :
    (allRawMatrices.map weight).sum = 996154581133962530019 := by
  rw [allRaw_split]
  simp only [List.map_append, List.sum_append]
  rw [chunk_wsum 0 0 _ chunk_w_00, chunk_wsum 0 1 _ chunk_w_01,
    chunk_wsum 0 2 _ chunk_w_02, chunk_wsum 1 0 _ chunk_w_10,
    chunk_wsum 1 1 _ chunk_w_11, chunk_wsum 1 2 _ chunk_w_12,
    chunk_wsum 2 0 _ chunk_w_20, chunk_wsum 2 1 _ chunk_w_21,
    chunk_wsum 2 2 _ chunk_w_22]
  norm_num

/-- The six packed statistics extracted from the single counting pass:
19683 raw matrices, 11232 invertible ones, 432 with conservation, 108
with conservation and kernel normalization, 54 doubly stochastic, and no
doubly-stochastic matrix violating the order property. -/
theorem counts_extracted :
    (allRawMatrices.filter isInvertible).length = 11232 ∧
    (allRawMatrices.filter p432).length = 432 ∧
    (allRawMatrices.filter p108).length = 108 ∧
    (allRawMatrices.filter p54).length = 54 ∧
    (allRawMatrices.filter pOrdBad).length = 0 := by
  have hs := sum_map_weight allRawMatrices
  rw [allRaw_weight_sum, allRaw_length] at hs
  have b1 := List.length_filter_le isInvertible allRawMatrices
  have b2 := List.length_filter_le p432 allRawMatrices
  have b3 := List.length_filter_le p108 allRawMatrices
  have b4 := List.length_filter_le p54 allRawMatrices
  have b5 := List.length_filter_le pOrdBad allRawMatrices
  rw [allRaw_length] at b1 b2 b3 b4 b5
  norm_num at hs
  omega

theorem ops_432_eq_filter : ops_432 = allRawMatrices.filter p432 := by
  rw [ops_432, generate_gl3_f3, List.filter_filter]; rfl

theorem ops_54_eq_filter : ops_54 = allRawMatrices.filter p54 := by
  rw [ops_54, generate_gl3_f3, List.filter_filter]; rfl

theorem ops_108_eq_filter : ops_108 = allRawMatrices.filter p108 := by
  rw [ops_108, generate_gl3_f3, List.filter_filter]; rfl

theorem generate_gl3_f3_length : generate_gl3_f3.length = 11232 := counts_extracted.1

theorem ops_432_length : ops_432.length = 432 := by
  rw [ops_432_eq_filter]; exact counts_extracted.2.1

theorem ops_54_length : ops_54.length = 54 := by
  rw [ops_54_eq_filter]; exact counts_extracted.2.2.2.1

theorem ops_108_length : ops_108.length = 108 := by
  rw [ops_108_eq_filter]; exact counts_extracted.2.2.1

theorem mem_ops_432_iff (M : Matrix3) :
    M ∈ ops_432 ↔ M ∈ allRawMatrices ∧ check_conservation M = true ∧ isInvertible M = true := by
  rw [ops_432_eq_filter, List.mem_filter, p432, Bool.and_eq_true]

theorem mem_ops_54_iff (M : Matrix3) :
    M ∈ ops_54 ↔ M ∈ allRawMatrices ∧ check_row_and_col M = true ∧ isInvertible M = true := by
  rw [ops_54_eq_filter, List.mem_filter, p54, Bool.and_eq_true]

theorem mem_ops_108_iff (M : Matrix3) :
    M ∈ ops_108 ↔ M ∈ allRawMatrices ∧
      (check_conservation M && check_normalizes_h M) = true ∧ isInvertible M = true := by
  rw [ops_108_eq_filter, List.mem_filter, p108, Bool.and_eq_true]

/-- The single-pass count of order violations is zero: every invertible
doubly-stochastic matrix passes the order check. -/
theorem orderOk_of_mem_ops_54 : ∀ M ∈ ops_54, orderOkBool M = true := by
  intro M hM
  have h0 : allRawMatrices.filter pOrdBad = [] :=
    List.length_eq_zero.mp counts_extracted.2.2.2.2
  have hall := List.filter_eq_nil_iff.mp h0
  rw [mem_ops_54_iff] at hM
  have hbad := hall M hM.1
  rw [pOrdBad, hM.2.1, hM.2.2] at hbad
  simp at hbad
  exact hbad

/-- Completeness of the enumeration: every 9-entry list with entries in
{0,1,2} occurs in `allRawMatrices`. -/
theorem mem_allRawMatrices (M : Matrix3) (hlen : M.length = 9)
    (hent : ∀ x ∈ M, x < 3) : M ∈ allRawMatrices := by
  have hf3 : ∀ x, x < 3 → x ∈ f3 := by
    intro x hx
    interval_cases x <;> simp [f3]
  match M, hlen with
  | [a, b, c, d, e, f, g, h, i], _ =>
    simp only [List.mem_cons, List.not_mem_nil, or_false, forall_eq_or_imp, forall_eq] at hent
    obtain ⟨ha, hb, hc, hd, he, hf, hg, hh, hi⟩ := hent
    rw [allRawMatrices]
    refine List.mem_flatMap.mpr ⟨a, hf3 a ha, ?_⟩
    refine List.mem_flatMap.mpr ⟨b, hf3 b hb, ?_⟩
    rw [enum_tail]
    refine List.mem_flatMap.mpr ⟨c, hf3 c hc, ?_⟩
    refine List.mem_flatMap.mpr ⟨d, hf3 d hd, ?_⟩
    refine List.mem_flatMap.mpr ⟨e, hf3 e he, ?_⟩
    refine List.mem_flatMap.mpr ⟨f, hf3 f hf, ?_⟩
    refine List.mem_flatMap.mpr ⟨g, hf3 g hg, ?_⟩
    refine List.mem_flatMap.mpr ⟨h, hf3 h hh, ?_⟩
    exact List.mem_map.mpr ⟨i, hf3 i hi, rfl⟩

/-! ## Bridge to Mathlib matrices over F3 -/

instance fact_prime_three : Fact (Nat.Prime 3) := ⟨by norm_num⟩

def toMat (M : Matrix3) : Matrix (Fin 3) (Fin 3) (ZMod 3) :=
  Matrix.of fun i j => ((M.getD (3 * i.val + j.val) 0 : Nat) : ZMod 3)

theorem toMat_apply (M : Matrix3) (i j : Fin 3) :
    toMat M i j = ((M.getD (3 * i.val + j.val) 0 : Nat) : ZMod 3) := rfl

theorem mult_getD (A B : Matrix3) (i j : Nat) (hi : i < 3) (hj : j < 3) :
    (matrix_mult_mod3 A B).getD (3 * i + j) 0 =
      (A.getD (3 * i) 0 * B.getD j 0 + A.getD (3 * i + 1) 0 * B.getD (3 + j) 0 +
        A.getD (3 * i + 2) 0 * B.getD (6 + j) 0) % 3 := by
  interval_cases i <;> interval_cases j <;> rfl

theorem toMat_mul (A B : Matrix3) :
    toMat (matrix_mult_mod3 A B) = toMat A * toMat B := by
  ext i j
  rw [Matrix.mul_apply, Fin.sum_univ_three, toMat_apply,
    mult_getD A B i.val j.val i.isLt j.isLt, ZMod.natCast_mod]
  push_cast
  rw [toMat_apply, toMat_apply, toMat_apply, toMat_apply, toMat_apply, toMat_apply]
  norm_num

theorem toMat_det (M : Matrix3) :
    (toMat M).det = ((det3_int M : ℤ) : ZMod 3) := by
  rw [Matrix.det_fin_three]
  simp only [toMat_apply, det3_int, geti]
  push_cast
  norm_num
  ring

theorem isInvertible_iff_det (M : Matrix3) :
    isInvertible M = true ↔ (toMat M).det ≠ 0 := by
  rw [toMat_det, isInvertible, bne_iff_ne, ne_eq, ne_eq,
    ZMod.intCast_zmod_eq_zero_iff_dvd]
  rw [Int.dvd_iff_emod_eq_zero]
  norm_num

theorem natmod3_eq_one_iff (n : Nat) : (n : ZMod 3) = 1 ↔ n % 3 = 1 := by
  rw [show (1 : ZMod 3) = ((1 : Nat) : ZMod 3) by norm_num,
    ZMod.natCast_eq_natCast_iff']

theorem rowSum_cast (M : Matrix3) (i : Fin 3) :
    ∑ j, toMat M i j = ((rowSum M i.val : Nat) : ZMod 3) := by
  rw [Fin.sum_univ_three, rowSum]
  push_cast
  simp only [toMat_apply]
  norm_num

theorem colSum_cast (M : Matrix3) (j : Fin 3) :
    ∑ i, toMat M i j = ((colSum M j.val : Nat) : ZMod 3) := by
  rw [Fin.sum_univ_three, colSum]
  push_cast
  simp only [toMat_apply]
  norm_num

theorem conservation_iff (M : Matrix3) :
    check_conservation M = true ↔ ∀ i : Fin 3, ∑ j, toMat M i j = 1 := by
  simp only [check_conservation, show List.range 3 = [0, 1, 2] from rfl,
    List.all_cons, List.all_nil, Bool.and_true, Bool.and_eq_true, beq_iff_eq]
  constructor
  · rintro ⟨h0, h1, h2⟩ i
    fin_cases i <;> rw [rowSum_cast, natmod3_eq_one_iff] <;> simpa
  · intro h
    have h0 := (natmod3_eq_one_iff _).mp ((rowSum_cast M 0).symm.trans (h 0))
    have h1 := (natmod3_eq_one_iff _).mp ((rowSum_cast M 1).symm.trans (h 1))
    have h2 := (natmod3_eq_one_iff _).mp ((rowSum_cast M 2).symm.trans (h 2))
    exact ⟨h0, h1, h2⟩

theorem colsOK_iff (M : Matrix3) :
    colsOK M = true ↔ ∀ j : Fin 3, ∑ i, toMat M i j = 1 := by
  simp only [colsOK, show List.range 3 = [0, 1, 2] from rfl,
    List.all_cons, List.all_nil, Bool.and_true, Bool.and_eq_true, beq_iff_eq]
  constructor
  · rintro ⟨h0, h1, h2⟩ j
    fin_cases j <;> rw [colSum_cast, natmod3_eq_one_iff] <;> simpa
  · intro h
    have h0 := (natmod3_eq_one_iff _).mp ((colSum_cast M 0).symm.trans (h 0))
    have h1 := (natmod3_eq_one_iff _).mp ((colSum_cast M 1).symm.trans (h 1))
    have h2 := (natmod3_eq_one_iff _).mp ((colSum_cast M 2).symm.trans (h 2))
    exact ⟨h0, h1, h2⟩

theorem mul_row_sums {P Q : Matrix (Fin 3) (Fin 3) (ZMod 3)}
    (hP : ∀ i, ∑ j, P i j = 1) (hQ : ∀ i, ∑ j, Q i j = 1) :
    ∀ i, ∑ j, (P * Q) i j = 1 := by
  intro i
  calc ∑ j, (P * Q) i j = ∑ j, ∑ k, P i k * Q k j := by
        simp only [Matrix.mul_apply]
    _ = ∑ k, ∑ j, P i k * Q k j := Finset.sum_comm
    _ = ∑ k, P i k * ∑ j, Q k j := by
        simp only [Finset.mul_sum]
    _ = ∑ k, P i k := by
        simp only [hQ, mul_one]
    _ = 1 := hP i

theorem mul_col_sums {P Q : Matrix (Fin 3) (Fin 3) (ZMod 3)}
    (hP : ∀ j, ∑ i, P i j = 1) (hQ : ∀ j, ∑ i, Q i j = 1) :
    ∀ j, ∑ i, (P * Q) i j = 1 := by
  intro j
  calc ∑ i, (P * Q) i j = ∑ i, ∑ k, P i k * Q k j := by
        simp only [Matrix.mul_apply]
    _ = ∑ k, ∑ i, P i k * Q k j := Finset.sum_comm
    _ = ∑ k, (∑ i, P i k) * Q k j := by
        simp only [Finset.sum_mul]
    _ = ∑ k, Q k j := by
        simp only [hP, one_mul]
    _ = 1 := hQ j

/-- The matrix product of two well-formed matrices is well-formed: nine
entries, all reduced below 3. -/
theorem mult_shape (A B : Matrix3) :
    (matrix_mult_mod3 A B).length = 9 ∧ ∀ x ∈ matrix_mult_mod3 A B, x < 3 := by
  refine ⟨rfl, ?_⟩
  intro x hx
  simp only [matrix_mult_mod3, List.mem_cons, List.not_mem_nil, or_false] at hx
  rcases hx with h | h | h | h | h | h | h | h | h <;> subst h <;> omega

theorem mult_mem_ops_432 {A B : Matrix3} (hA : A ∈ ops_432) (hB : B ∈ ops_432) :
    matrix_mult_mod3 A B ∈ ops_432 := by
  rw [mem_ops_432_iff] at hA hB ⊢
  obtain ⟨hAr, hAc, hAi⟩ := hA
  obtain ⟨hBr, hBc, hBi⟩ := hB
  obtain ⟨hlen, hent⟩ := mult_shape A B
  refine ⟨mem_allRawMatrices _ hlen hent, ?_, ?_⟩
  · rw [conservation_iff, toMat_mul]
    exact mul_row_sums ((conservation_iff A).mp hAc) ((conservation_iff B).mp hBc)
  · rw [isInvertible_iff_det, toMat_mul, Matrix.det_mul]
    exact mul_ne_zero ((isInvertible_iff_det A).mp hAi) ((isInvertible_iff_det B).mp hBi)

theorem rc_split (M : Matrix3) :
    check_row_and_col M = true ↔ check_conservation M = true ∧ colsOK M = true := by
  rw [check_row_and_col, Bool.and_eq_true]

theorem mult_mem_ops_54 {A B : Matrix3} (hA : A ∈ ops_54) (hB : B ∈ ops_54) :
    matrix_mult_mod3 A B ∈ ops_54 := by
  rw [mem_ops_54_iff] at hA hB ⊢
  obtain ⟨hAr, hArc, hAi⟩ := hA
  obtain ⟨hBr, hBrc, hBi⟩ := hB
  obtain ⟨hAcons, hAcols⟩ := (rc_split A).mp hArc
  obtain ⟨hBcons, hBcols⟩ := (rc_split B).mp hBrc
  obtain ⟨hlen, hent⟩ := mult_shape A B
  refine ⟨mem_allRawMatrices _ hlen hent, ?_, ?_⟩
  · rw [rc_split]
    constructor
    · rw [conservation_iff, toMat_mul]
      exact mul_row_sums ((conservation_iff A).mp hAcons) ((conservation_iff B).mp hBcons)
    · rw [colsOK_iff, toMat_mul]
      exact mul_col_sums ((colsOK_iff A).mp hAcols) ((colsOK_iff B).mp hBcols)
  · rw [isInvertible_iff_det, toMat_mul, Matrix.det_mul]
    exact mul_ne_zero ((isInvertible_iff_det A).mp hAi) ((isInvertible_iff_det B).mp hBi)

theorem identity3_mem_ops_54 : identity3 ∈ ops_54 := by
  rw [mem_ops_54_iff]
  exact ⟨mem_allRawMatrices _ (by decide) (by decide), by decide, by decide⟩

theorem identity3_mem_ops_432 : identity3 ∈ ops_432 := by
  rw [mem_ops_432_iff]
  exact ⟨mem_allRawMatrices _ (by decide) (by decide), by decide, by decide⟩

theorem ops_54_subset_ops_432 : ∀ M ∈ ops_54, M ∈ ops_432 := by
  intro M hM
  rw [mem_ops_54_iff] at hM
  rw [mem_ops_432_iff]
  exact ⟨hM.1, ((rc_split M).mp hM.2.1).1, hM.2.2⟩

/-- The mod-3 image of the post-image sum is linear in the input vector:
evaluated on `a·b₁ + b·b₂`, it is the corresponding combination of the
basis values. -/
theorem castSum_combo (M : Matrix3) (a b : Nat) :
    (((mulVec_mod3 M (lin_combo a b)).sum % 3 : Nat) : ZMod 3) =
      (a : ZMod 3) * ((mulVec_mod3 M [1, 2, 0]).sum % 3 : Nat) +
        (b : ZMod 3) * ((mulVec_mod3 M [0, 1, 2]).sum % 3 : Nat) := by
  simp only [mulVec_mod3, lin_combo, H_basis, List.getD_cons_zero, List.getD_cons_succ,
    List.zipWith, List.sum_cons, List.sum_nil, ZMod.natCast_mod]
  push_cast [ZMod.natCast_mod]
  ring

/-- A value `n % 3` is zero exactly when its image in F₃ is zero. -/
theorem mod3_eq_zero_iff (n : Nat) : n % 3 = 0 ↔ ((n % 3 : Nat) : ZMod 3) = 0 := by
  rw [ZMod.natCast_mod, show (0 : ZMod 3) = ((0 : Nat) : ZMod 3) by norm_num,
    ZMod.natCast_eq_natCast_iff']

/-- `check_normalizes_h` coincides with the two-basis-vector check: the sum
condition is linear, so the eight redundant combinations follow from the
basis cases. -/
theorem check_normalizes_h_eq_basis (M : Matrix3) :
    check_normalizes_h M = check_normalizes_h_basis M := by
  rw [check_normalizes_h, check_normalizes_h_basis]
  cases hb : H_basis.all fun v => (mulVec_mod3 M v).sum % 3 == 0 with
  | false => rw [Bool.false_and]
  | true =>
    rw [Bool.true_and]
    simp only [H_basis, List.all_cons, List.all_nil, Bool.and_true, Bool.and_eq_true,
      beq_iff_eq] at hb
    obtain ⟨h1, h2⟩ := hb
    have hz1 : (((mulVec_mod3 M [1, 2, 0]).sum % 3 : Nat) : ZMod 3) = 0 := by
      rw [h1]; norm_num
    have hz2 : (((mulVec_mod3 M [0, 1, 2]).sum % 3 : Nat) : ZMod 3) = 0 := by
      rw [h2]; norm_num
    have hcombo : ∀ a b : Nat, (mulVec_mod3 M (lin_combo a b)).sum % 3 = 0 := by
      intro a b
      rw [mod3_eq_zero_iff, ZMod.natCast_mod, ← ZMod.natCast_mod _ 3, castSum_combo,
        hz1, hz2]
      ring
    simp only [f3, List.all_cons, List.all_nil, Bool.and_true]
    simp [hcombo]


/-! ## Properties of the breadth-first closure -/

theorem mem_addSeed (g : List Matrix3) (y x : Matrix3) :
    x ∈ addSeed g y ↔ x ∈ g ∨ x = y := by
  rw [addSeed]
  split
  · rename_i hy
    constructor
    · exact Or.inl
    · rintro (h | rfl)
      · exact h
      · exact hy
  · simp [List.mem_append]

theorem mem_foldl_addSeed :
    ∀ (gens : List Matrix3) (g : List Matrix3) (x : Matrix3),
      x ∈ gens.foldl addSeed g ↔ x ∈ g ∨ x ∈ gens := by
  intro gens
  induction gens with
  | nil => simp
  | cons y rest ih =>
    intro g x
    rw [List.foldl_cons, ih, mem_addSeed]
    simp [or_assoc]

theorem mem_init_group (gens : List Matrix3) (x : Matrix3) :
    x ∈ init_group gens ↔ x = identity3 ∨ x ∈ gens := by
  rw [init_group, mem_foldl_addSeed]
  simp

theorem addSeed_nodup {g : List Matrix3} (h : g.Nodup) (y : Matrix3) :
    (addSeed g y).Nodup := by
  rw [addSeed]
  split
  · exact h
  · rename_i hy
    rw [List.nodup_append]
    exact ⟨h, List.nodup_singleton y, by simpa using hy⟩

theorem foldl_addSeed_nodup :
    ∀ (gens : List Matrix3) {g : List Matrix3}, g.Nodup → (gens.foldl addSeed g).Nodup := by
  intro gens
  induction gens with
  | nil => intro g h; exact h
  | cons y rest ih =>
    intro g h
    exact ih (addSeed_nodup h y)

theorem init_group_nodup (gens : List Matrix3) : (init_group gens).Nodup :=
  foldl_addSeed_nodup gens (List.nodup_singleton identity3)

/-- If both products of `current` with an element already lie in the
closure, processing that element changes nothing. -/
theorem processElem_nochange {max_size : Nat} {current : Matrix3}
    {group queue : List Matrix3} {elem : Matrix3}
    (h1 : matrix_mult_mod3 current elem ∈ group)
    (h2 : matrix_mult_mod3 elem current ∈ group) :
    processElem max_size current group queue elem = (group, queue) := by
  simp only [processElem, tryAdd, if_pos h1, if_pos h2]

theorem processSnapshot_nochange {max_size : Nat} {current : Matrix3} :
    ∀ (snap : List Matrix3) (group queue : List Matrix3),
      (∀ e ∈ snap, matrix_mult_mod3 current e ∈ group ∧
        matrix_mult_mod3 e current ∈ group) →
      processSnapshot max_size current snap group queue = (group, queue) := by
  intro snap
  induction snap with
  | nil => intro g q _; rfl
  | cons e rest ih =>
    intro g q h
    rw [processSnapshot, processElem_nochange (h e (by simp)).1 (h e (by simp)).2]
    exact ih g q fun e' he' => h e' (by simp [he'])

/-- On a multiplicatively closed group list, the BFS loop never adds
anything: it returns the closure unchanged, for every fuel and cap. -/
theorem generate_group_loop_closed {max_size : Nat} {g : List Matrix3}
    (hcl : ∀ a ∈ g, ∀ b ∈ g, matrix_mult_mod3 a b ∈ g) :
    ∀ (fuel : Nat) (queue processed : List Matrix3), (∀ x ∈ queue, x ∈ g) →
      generate_group_loop max_size fuel queue g processed = g := by
  intro fuel
  induction fuel with
  | zero => intro queue processed _; rfl
  | succ n ih =>
    intro queue processed hq
    match queue with
    | [] => rfl
    | current :: rest =>
      rw [generate_group_loop]
      split
      · rfl
      · split
        · exact ih rest processed fun x hx => hq x (by simp [hx])
        · have hcur : current ∈ g := hq current (by simp)
          have hps := @processSnapshot_nochange max_size current g g rest
            fun e he => ⟨hcl current hcur e he, hcl e he current hcur⟩
          rw [hps]
          exact ih rest (current :: processed) fun x hx => hq x (by simp [hx])

/-- Seeding the BFS with a multiplicatively closed set (once the identity
is adjoined) returns the initial closure list unchanged. -/
theorem generate_group_eq_init (gens : List Matrix3) (max_size : Nat)
    (hcl : ∀ a ∈ init_group gens, ∀ b ∈ init_group gens,
      matrix_mult_mod3 a b ∈ init_group gens) :
    generate_group gens max_size = init_group gens := by
  rw [generate_group]
  exact generate_group_loop_closed hcl _ gens []
    fun x hx => (mem_init_group gens x).mpr (Or.inr hx)


/-! ## The enumeration has no duplicates

Flattened matrices are mapped to their base-3 key (the `MatrixKey`
canonicalization of the data model); on each enumeration chunk the keys
are strictly increasing within the chunk's key range, so the whole
enumeration is duplicate-free. -/

/-- Base-3 key of a flattened matrix. -/
def keyFn (M : Matrix3) : Nat := M.foldl (fun acc x => acc * 3 + x) 0

/-- `incrBounded hi lo l` holds when `l` is strictly increasing, bounded
below by `lo` and strictly above by `hi` (tail-recursive). -/
def incrBounded (hi : Nat) : Nat → List Nat → Bool
  | _, [] => true
  | lo, x :: rest =>
    match Nat.ble lo x && Nat.blt x hi with
    | false => false
    | true => incrBounded hi (x + 1) rest

theorem incrBounded_spec (hi : Nat) :
    ∀ (l : List Nat) (lo : Nat), incrBounded hi lo l = true →
      l.Pairwise (· < ·) ∧ ∀ x ∈ l, lo ≤ x ∧ x < hi := by
  intro l
  induction l with
  | nil => intro lo _; exact ⟨List.Pairwise.nil, by simp⟩
  | cons x rest ih =>
    intro lo h
    rw [incrBounded] at h
    rcases hc : Nat.ble lo x && Nat.blt x hi with _ | _
    · rw [hc] at h; exact absurd h (by simp)
    · rw [hc] at h
      have hb := hc
      rw [Bool.and_eq_true, Nat.ble_eq, Nat.blt_eq] at hb
      obtain ⟨hlo, hhi⟩ := hb
      obtain ⟨hpw, hbound⟩ := ih (x + 1) h
      constructor
      · exact List.Pairwise.cons (fun y hy => (hbound y hy).1.trans_lt' (by omega)) hpw
      · intro y hy
        rcases List.mem_cons.mp hy with rfl | hy'
        · exact ⟨hlo, hhi⟩
        · have := hbound y hy'
          omega

set_option maxRecDepth 40000 in
set_option maxHeartbeats 4000000 in
theorem chunk_key_00 : incrBounded 2187 0 ((enum_tail 0 0).map keyFn) = true := by decide

set_option maxRecDepth 40000 in
set_option maxHeartbeats 4000000 in
theorem chunk_key_01 : incrBounded 4374 2187 ((enum_tail 0 1).map keyFn) = true := by decide

set_option maxRecDepth 40000 in
set_option maxHeartbeats 4000000 in
theorem chunk_key_02 : incrBounded 6561 4374 ((enum_tail 0 2).map keyFn) = true := by decide

set_option maxRecDepth 40000 in
set_option maxHeartbeats 4000000 in
theorem chunk_key_10 : incrBounded 8748 6561 ((enum_tail 1 0).map keyFn) = true := by decide

set_option maxRecDepth 40000 in
set_option maxHeartbeats 4000000 in
theorem chunk_key_11 : incrBounded 10935 8748 ((enum_tail 1 1).map keyFn) = true := by decide

set_option maxRecDepth 40000 in
set_option maxHeartbeats 4000000 in
theorem chunk_key_12 : incrBounded 13122 10935 ((enum_tail 1 2).map keyFn) = true := by decide

set_option maxRecDepth 40000 in
set_option maxHeartbeats 4000000 in
theorem chunk_key_20 : incrBounded 15309 13122 ((enum_tail 2 0).map keyFn) = true := by decide

set_option maxRecDepth 40000 in
set_option maxHeartbeats 4000000 in
theorem chunk_key_21 : incrBounded 17496 15309 ((enum_tail 2 1).map keyFn) = true := by decide

set_option maxRecDepth 40000 in
set_option maxHeartbeats 4000000 in
theorem chunk_key_22 : incrBounded 19683 17496 ((enum_tail 2 2).map keyFn) = true := by decide

/-- Pairwise increase for the concatenation of two key blocks whose
ranges are adjacent. -/
theorem pairwise_append_blocks {l₁ l₂ : List Nat} {lo₁ hi₁ lo₂ hi₂ : Nat}
    (h₁ : l₁.Pairwise (· < ·) ∧ ∀ x ∈ l₁, lo₁ ≤ x ∧ x < hi₁)
    (h₂ : l₂.Pairwise (· < ·) ∧ ∀ x ∈ l₂, lo₂ ≤ x ∧ x < hi₂)
    (hle : hi₁ ≤ lo₂) (hlo : lo₁ ≤ lo₂) (hhi : hi₁ ≤ hi₂) :
    (l₁ ++ l₂).Pairwise (· < ·) ∧ ∀ x ∈ l₁ ++ l₂, lo₁ ≤ x ∧ x < hi₂ := by
  constructor
  · rw [List.pairwise_append]
    refine ⟨h₁.1, h₂.1, ?_⟩
    intro a ha b hb
    have := h₁.2 a ha
    have := h₂.2 b hb
    omega
  · intro x hx
    rcases List.mem_append.mp hx with hx | hx
    · have := h₁.2 x hx; omega
    · have := h₂.2 x hx; omega

theorem allRaw_keys_pairwise :
    (allRawMatrices.map keyFn).Pairwise (· < ·) := by
  have c00 := incrBounded_spec 2187 _ _ chunk_key_00
  have c01 := incrBounded_spec 4374 _ _ chunk_key_01
  have c02 := incrBounded_spec 6561 _ _ chunk_key_02
  have c10 := incrBounded_spec 8748 _ _ chunk_key_10
  have c11 := incrBounded_spec 10935 _ _ chunk_key_11
  have c12 := incrBounded_spec 13122 _ _ chunk_key_12
  have c20 := incrBounded_spec 15309 _ _ chunk_key_20
  have c21 := incrBounded_spec 17496 _ _ chunk_key_21
  have c22 := incrBounded_spec 19683 _ _ chunk_key_22
  have b0 := pairwise_append_blocks c01 c02 (by norm_num) (by norm_num) (by norm_num)
  have b0' := pairwise_append_blocks c00 b0 (by norm_num) (by norm_num) (by norm_num)
  have b1 := pairwise_append_blocks c11 c12 (by norm_num) (by norm_num) (by norm_num)
  have b1' := pairwise_append_blocks c10 b1 (by norm_num) (by norm_num) (by norm_num)
  have b2 := pairwise_append_blocks c21 c22 (by norm_num) (by norm_num) (by norm_num)
  have b2' := pairwise_append_blocks c20 b2 (by norm_num) (by norm_num) (by norm_num)
  have b3 := pairwise_append_blocks b1' b2' (by norm_num) (by norm_num) (by norm_num)
  have b4 := pairwise_append_blocks b0' b3 (by norm_num) (by norm_num) (by norm_num)
  rw [allRaw_split]
  simpa only [List.map_append, List.append_assoc] using b4.1

theorem allRaw_nodup : allRawMatrices.Nodup := by
  apply List.Nodup.of_map keyFn
  exact allRaw_keys_pairwise.imp fun hab => Nat.ne_of_lt hab

theorem ops_54_nodup : ops_54.Nodup := by
  rw [ops_54_eq_filter]
  exact List.Nodup.filter p54 allRaw_nodup

theorem ops_432_nodup : ops_432.Nodup := by
  rw [ops_432_eq_filter]
  exact List.Nodup.filter p432 allRaw_nodup


/-! ## The closure stays inside the 432-element stratum

When every seed lies in `ops_432`, every matrix the BFS ever inserts is a
product of elements of `ops_432`, so the closure list is a duplicate-free
list of elements of `ops_432` — hence never longer than 432. -/

theorem tryAdd_inv (cap : Nat) (g q : List Matrix3) {prod : Matrix3}
    (hp : prod ∈ ops_432) (hgn : g.Nodup) (hgs : ∀ x ∈ g, x ∈ ops_432)
    (hqs : ∀ x ∈ q, x ∈ ops_432) :
    (tryAdd cap g q prod).1.Nodup ∧ (∀ x ∈ (tryAdd cap g q prod).1, x ∈ ops_432) ∧
      ∀ x ∈ (tryAdd cap g q prod).2.1, x ∈ ops_432 := by
  rw [tryAdd]
  split
  · exact ⟨hgn, hgs, hqs⟩
  · rename_i hnew
    have hgn' : (g ++ [prod]).Nodup := by
      rw [List.nodup_append]
      exact ⟨hgn, List.nodup_singleton prod, by simpa using hnew⟩
    have hgs' : ∀ x ∈ g ++ [prod], x ∈ ops_432 := by
      intro x hx
      rcases List.mem_append.mp hx with hx | hx
      · exact hgs x hx
      · simp only [List.mem_singleton] at hx; subst hx; exact hp
    split
    · exact ⟨hgn', hgs', hqs⟩
    · refine ⟨hgn', hgs', ?_⟩
      intro x hx
      rcases List.mem_append.mp hx with hx | hx
      · exact hqs x hx
      · simp only [List.mem_singleton] at hx; subst hx; exact hp

theorem processElem_inv (cap : Nat) {cur elem : Matrix3} (g q : List Matrix3)
    (hc : cur ∈ ops_432) (he : elem ∈ ops_432) (hgn : g.Nodup)
    (hgs : ∀ x ∈ g, x ∈ ops_432) (hqs : ∀ x ∈ q, x ∈ ops_432) :
    (processElem cap cur g q elem).1.Nodup ∧
      (∀ x ∈ (processElem cap cur g q elem).1, x ∈ ops_432) ∧
      ∀ x ∈ (processElem cap cur g q elem).2, x ∈ ops_432 := by
  have h1 := tryAdd_inv cap g q (mult_mem_ops_432 hc he) hgn hgs hqs
  rw [processElem]
  rcases ht : tryAdd cap g q (matrix_mult_mod3 cur elem) with ⟨g1, q1, brk⟩
  rw [ht] at h1
  obtain ⟨h1n, h1g, h1q⟩ := h1
  cases brk with
  | true => exact ⟨h1n, h1g, h1q⟩
  | false =>
    have h2 := tryAdd_inv cap g1 q1 (mult_mem_ops_432 he hc) h1n h1g h1q
    rcases ht2 : tryAdd cap g1 q1 (matrix_mult_mod3 elem cur) with ⟨g2, q2, brk2⟩
    rw [ht2] at h2
    dsimp only
    rw [ht2]
    exact h2

theorem processSnapshot_inv (cap : Nat) {cur : Matrix3} (hc : cur ∈ ops_432) :
    ∀ (snap : List Matrix3) (g q : List Matrix3),
      (∀ e ∈ snap, e ∈ ops_432) → g.Nodup → (∀ x ∈ g, x ∈ ops_432) →
      (∀ x ∈ q, x ∈ ops_432) →
      (processSnapshot cap cur snap g q).1.Nodup ∧
        (∀ x ∈ (processSnapshot cap cur snap g q).1, x ∈ ops_432) ∧
        ∀ x ∈ (processSnapshot cap cur snap g q).2, x ∈ ops_432 := by
  intro snap
  induction snap with
  | nil => intro g q _ hgn hgs hqs; exact ⟨hgn, hgs, hqs⟩
  | cons e rest ih =>
    intro g q hsnap hgn hgs hqs
    have he : e ∈ ops_432 := hsnap e (by simp)
    have h1 := processElem_inv cap g q hc he hgn hgs hqs
    rw [processSnapshot]
    rcases hp : processElem cap cur g q e with ⟨g1, q1⟩
    rw [hp] at h1
    exact ih g1 q1 (fun e' he' => hsnap e' (by simp [he'])) h1.1 h1.2.1 h1.2.2

theorem generate_group_loop_inv (cap : Nat) :
    ∀ (fuel : Nat) (queue g processed : List Matrix3),
      g.Nodup → (∀ x ∈ g, x ∈ ops_432) → (∀ x ∈ queue, x ∈ ops_432) →
      (generate_group_loop cap fuel queue g processed).Nodup ∧
        ∀ x ∈ generate_group_loop cap fuel queue g processed, x ∈ ops_432 := by
  intro fuel
  induction fuel with
  | zero => intro queue g processed hgn hgs _; exact ⟨hgn, hgs⟩
  | succ n ih =>
    intro queue g processed hgn hgs hqs
    match queue with
    | [] => exact ⟨hgn, hgs⟩
    | current :: rest =>
      rw [generate_group_loop]
      split
      · exact ⟨hgn, hgs⟩
      · split
        · exact ih rest g processed hgn hgs fun x hx => hqs x (by simp [hx])
        · have hcur : current ∈ ops_432 := hqs current (by simp)
          have hps := processSnapshot_inv cap hcur g g rest hgs hgn hgs
            fun x hx => hqs x (by simp [hx])
          rcases hp : processSnapshot cap current g g rest with ⟨g1, q1⟩
          rw [hp] at hps
          exact ih q1 g1 (current :: processed) hps.1 hps.2.1 hps.2.2

theorem generate_group_inv {gens : List Matrix3} (cap : Nat)
    (h : ∀ x ∈ gens, x ∈ ops_432) :
    (generate_group gens cap).Nodup ∧ ∀ x ∈ generate_group gens cap, x ∈ ops_432 := by
  rw [generate_group]
  apply generate_group_loop_inv cap _ _ _ _ (init_group_nodup gens) _ h
  intro x hx
  rcases (mem_init_group gens x).mp hx with rfl | hx'
  · exact identity3_mem_ops_432
  · exact h x hx'

/-- A duplicate-free list of elements of the 432-element stratum has at
most 432 entries. -/
theorem length_le_432 {l : List Matrix3} (hn : l.Nodup) (hs : ∀ x ∈ l, x ∈ ops_432) :
    l.length ≤ 432 := by
  have h1 : l.length = l.toFinset.card := (List.toFinset_card_of_nodup hn).symm
  have h2 : l.toFinset ⊆ ops_432.toFinset := by
    intro x hx
    rw [List.mem_toFinset] at hx ⊢
    exact hs x hx
  calc l.length = l.toFinset.card := h1
    _ ≤ ops_432.toFinset.card := Finset.card_le_card h2
    _ ≤ ops_432.length := List.toFinset_card_le ops_432
    _ = 432 := ops_432_length

theorem generate_group_length_le {gens : List Matrix3} (cap : Nat)
    (h : ∀ x ∈ gens, x ∈ ops_432) : (generate_group gens cap).length ≤ 432 := by
  obtain ⟨hn, hs⟩ := generate_group_inv cap h
  exact length_le_432 hn hs

/-- The operators named by a valid index tuple all lie in the 432-set. -/
theorem pool_map_sub {pool : List Matrix3} (hp : ∀ x ∈ pool, x ∈ ops_432)
    {t : List Nat} (hidx : ∀ i ∈ t, i < pool.length) :
    ∀ x ∈ t.map fun i => pool.getD i [], x ∈ ops_432 := by
  intro x hx
  rcases List.mem_map.mp hx with ⟨i, hi, rfl⟩
  have hilt := hidx i hi
  rw [List.getD_eq_getElem?_getD, List.getElem?_eq_getElem hilt]
  exact hp _ (List.getElem_mem hilt)

/-- `verify_minimality` is the conjunction the spec describes: the full
tuple generates exactly 432 elements and every one-element-removed
reduction generates strictly fewer. -/
theorem verify_minimality_iff (pool : List Matrix3) (t : List Nat)
    (hp : ∀ x ∈ pool, x ∈ ops_432) (hk : 1 < t.length)
    (hidx : ∀ i ∈ t, i < pool.length) :
    verify_minimality pool t = true ↔
      ((generate_group (t.map fun i => pool.getD i []) 432).length = 432 ∧
        ∀ i < t.length,
          (generate_group ((t.eraseIdx i).map fun j => pool.getD j []) 432).length < 432) := by
  have hne : ¬(t.length == 1) = true := by
    rw [beq_iff_eq]; omega
  rw [verify_minimality, if_neg hne]
  dsimp only
  have hfull_le := generate_group_length_le 432 (pool_map_sub hp hidx)
  have hred_le : ∀ i, (generate_group ((t.eraseIdx i).map fun j => pool.getD j []) 432).length ≤ 432 := by
    intro i
    refine generate_group_length_le 432 (pool_map_sub hp ?_)
    intro j hj
    exact hidx j ((t.eraseIdx_sublist i).subset hj)
  split
  · rename_i hfne
    rw [bne_iff_ne] at hfne
    constructor
    · intro h; exact absurd h (by simp)
    · rintro ⟨hfull, _⟩; exact absurd hfull hfne
  · rename_i hfeq
    rw [bne_iff_ne, not_not] at hfeq
    rw [List.all_eq_true]
    constructor
    · intro h
      refine ⟨hfeq, ?_⟩
      intro i hi
      have := h i (List.mem_range.mpr hi)
      rw [bne_iff_ne] at this
      have := hred_le i
      omega
    · rintro ⟨_, h⟩ i hi
      rw [bne_iff_ne]
      have := h i (List.mem_range.mp hi)
      omega


/-! ## Remaining helper lemmas -/

theorem mem_init_ops_54 (x : Matrix3) : x ∈ init_group ops_54 ↔ x ∈ ops_54 := by
  rw [mem_init_group]
  constructor
  · rintro (rfl | hx)
    · exact identity3_mem_ops_54
    · exact hx
  · exact Or.inr

/-- Seeding the closure with the full doubly-stochastic set adds nothing:
the result is the initial closure list, for every cap. -/
theorem generate_group_54_eq (cap : Nat) :
    generate_group ops_54 cap = init_group ops_54 := by
  apply generate_group_eq_init
  intro a ha b hb
  rw [mem_init_ops_54] at ha hb ⊢
  exact mult_mem_ops_54 ha hb

theorem init_ops_54_length : (init_group ops_54).length = 54 := by
  have hfs : (init_group ops_54).toFinset = ops_54.toFinset := by
    apply Finset.ext
    intro x
    rw [List.mem_toFinset, List.mem_toFinset, mem_init_ops_54]
  calc (init_group ops_54).length
      = (init_group ops_54).toFinset.card :=
        (List.toFinset_card_of_nodup (init_group_nodup ops_54)).symm
    _ = ops_54.toFinset.card := by rw [hfs]
    _ = ops_54.length := List.toFinset_card_of_nodup ops_54_nodup
    _ = 54 := ops_54_length

/-- The truncation flag is pure instrumentation: the flagged loop returns
the same closure list as the plain loop. -/
theorem generate_group_loop_flagged_fst (cap : Nat) :
    ∀ (fuel : Nat) (queue g processed : List Matrix3),
      (generate_group_loop_flagged cap fuel queue g processed).1 =
        generate_group_loop cap fuel queue g processed := by
  intro fuel
  induction fuel with
  | zero => intro queue g processed; rfl
  | succ n ih =>
    intro queue g processed
    match queue with
    | [] => rfl
    | current :: rest =>
      rw [generate_group_loop_flagged, generate_group_loop]
      split
      · rfl
      · split
        · exact ih rest g processed
        · rcases hp : processSnapshot cap current g g rest with ⟨g1, q1⟩
          exact ih q1 g1 (current :: processed)

theorem generate_group_flagged_fst (gens : List Matrix3) (cap : Nat) :
    (generate_group_flagged gens cap).1 = generate_group gens cap := by
  rw [generate_group_flagged, generate_group]
  exact generate_group_loop_flagged_fst cap _ gens (init_group gens) []

/-- Rounding any value within one half of an integer recovers that
integer. -/
theorem round_eq_of_close (d : ℤ) (q : ℚ) (h : |q - (d : ℚ)| < 1 / 2) :
    round q = d := by
  rw [round_eq, Int.floor_eq_iff]
  rw [abs_sub_lt_iff] at h
  constructor
  · push_cast
    linarith [h.2]
  · push_cast
    linarith [h.1]

/-- Unpacking the Boolean order certificate. -/
theorem orderOk_unpack {M : Matrix3} (h : orderOkBool M = true) :
    ∃ n, compute_order M = some n ∧ n ∈ ([1, 2, 3, 6] : List Nat) ∧
      matpow M n = identity3 ∧ ∀ m, 0 < m → m < n → matpow M m ≠ identity3 := by
  rw [orderOkBool] at h
  rcases hco : compute_order M with _ | n
  · rw [hco] at h; exact absurd h (by simp)
  · rw [hco] at h
    rw [Bool.and_eq_true, Bool.and_eq_true] at h
    obtain ⟨⟨hmem, hpow⟩, hleast⟩ := h
    refine ⟨n, rfl, ?_, ?_, ?_⟩
    · simpa using hmem
    · simpa using hpow
    · intro m hm0 hmn
      have := List.all_eq_true.mp hleast m (List.mem_range.mpr hmn)
      rcases Bool.or_eq_true _ _ |>.mp this with h' | h'
      · have hm : m = 0 := by simpa using h'
        exact absurd hm (by omega)
      · simpa using h'

/-- The six fallback operators all lie in the 432-element stratum. -/
theorem e46_sub_ops_432 : ∀ P ∈ e46_operators, P ∈ ops_432 := by
  intro P hP
  simp only [e46_operators, List.mem_cons, List.not_mem_nil, or_false] at hP
  rcases hP with rfl | rfl | rfl | rfl | rfl | rfl <;>
    exact (mem_ops_432_iff _).mpr
      ⟨mem_allRawMatrices _ (by decide) (by decide), by decide, by decide⟩

/-- Seeds for the cap-overshoot example: a 3-cycle and a shear. -/
def cexA : Matrix3 := [0, 1, 0, 0, 0, 1, 1, 0, 0]

/-- Second seed for the cap-overshoot example. -/
def cexB : Matrix3 := [1, 1, 0, 0, 1, 0, 0, 0, 1]

/-- The swap matrix used in the truncated-vs-complete example. -/
def swapM : Matrix3 := [0, 1, 0, 1, 0, 0, 0, 0, 1]



/-! ## The claims -/

/-- **C1**: among the 3^9 = 19683 raw 3×3 matrices over {0,1,2}, exactly
11232 are invertible mod 3 (GL(3,F₃)); of those, exactly 432 are
row-stochastic and exactly 54 doubly stochastic, and the 54-set is
contained in the 432-set. -/
theorem C1_filtration_counts :
    allRawMatrices.length = 19683 ∧
    generate_gl3_f3.length = 11232 ∧
    ops_432.length = 432 ∧
    ops_54.length = 54 ∧
    ∀ M ∈ ops_54, M ∈ ops_432 :=
  ⟨allRaw_length, generate_gl3_f3_length, ops_432_length, ops_54_length,
    ops_54_subset_ops_432⟩

/-- **C2**: the 54-element doubly-stochastic set is closed under mod-3
matrix multiplication, contains the identity, and for each element
`compute_order` (cap 20) returns `some n` — never the sentinel — where
`n ∈ {1,2,3,6}` is the least positive exponent with `Mⁿ = I`. -/
theorem C2_group_54 :
    (∀ A ∈ ops_54, ∀ B ∈ ops_54, matrix_mult_mod3 A B ∈ ops_54) ∧
    identity3 ∈ ops_54 ∧
    ∀ M ∈ ops_54, ∃ n, compute_order M = some n ∧ n ∈ ([1, 2, 3, 6] : List Nat) ∧
      matpow M n = identity3 ∧ ∀ m, 0 < m → m < n → matpow M m ≠ identity3 := by
  refine ⟨fun A hA B hB => mult_mem_ops_54 hA hB, identity3_mem_ops_54, ?_⟩
  intro M hM
  exact orderOk_unpack (orderOk_of_mem_ops_54 M hM)

/-- **C3**: evaluation of the code at the failing input: with two distinct
seeds and cap 4 (≥ distinct seeds + 1), `generate_group` returns 5
elements — more than the cap — because the size-cap `break` exits only
the inner two-product loop, not the snapshot pass. -/
theorem C3_cap_overshoot :
    [cexA, cexB].dedup.length + 1 ≤ 4 ∧
      (generate_group [cexA, cexB] 4).length = 5 := by decide

/-- **C4** counterexample: a run that hits the cap (seed `swapM`, cap 2 —
the loop exits with a nonempty queue) returns the very same value as a
complete run (cap 10 — the queue empties), so the returned result does
not record the truncated/complete distinction. -/
theorem C4_no_truncation_flag_counterexample :
    (generate_group_flagged [swapM] 2).2 = true ∧
    (generate_group_flagged [swapM] 10).2 = false ∧
    (generate_group_flagged [swapM] 2).1 = (generate_group_flagged [swapM] 10).1 := by
  decide

/-- **C4** amended: `generate_group` returns only the closure set — the
first component of the instrumented run, with the truncation flag
discarded — and a truncated run can return exactly the same set as a
complete one; callers can only compare the returned size against the
target. -/
theorem C4_result_is_bare_set :
    (∀ (gens : List Matrix3) (cap : Nat),
      generate_group gens cap = (generate_group_flagged gens cap).1) ∧
    generate_group [swapM] 2 = generate_group [swapM] 10 := by
  refine ⟨fun gens cap => (generate_group_flagged_fst gens cap).symm, ?_⟩
  decide

/-- **C5**: filtering GL(3,F₃) by conservation together with the
kernel-normalization predicate yields exactly 108 matrices. -/
theorem C5_stratum_108 :
    (generate_gl3_f3.filter fun M =>
      check_conservation M && check_normalizes_h M).length = 108 :=
  ops_108_length

/-- **C6**: for every pool of operators from the 432-element stratum and
every index tuple `t` with `|t| > 1`, `verify_minimality` returns `true`
iff the full tuple generates exactly 432 elements and every
one-element-removed reduction generates strictly fewer than 432; in
particular it returns `false` whenever the full tuple does not generate
432 elements. -/
theorem C6_verify_minimality (pool : List Matrix3)
    (hpool : ∀ P ∈ pool, P ∈ ops_432) (t : List Nat) (hk : 1 < t.length)
    (hidx : ∀ i ∈ t, i < pool.length) :
    verify_minimality pool t = true ↔
      ((generate_group (t.map fun i => pool.getD i []) 432).length = 432 ∧
        ∀ i < t.length,
          (generate_group ((t.eraseIdx i).map fun j => pool.getD j []) 432).length < 432) :=
  verify_minimality_iff pool t hpool hk hidx

/-- Witness for **C6**: the hypotheses hold for the six fallback E46
operators and the index pair `[0, 1]`. -/
theorem C6_verify_minimality_witness :
    (∀ P ∈ e46_operators, P ∈ ops_432) ∧ 1 < ([0, 1] : List Nat).length ∧
    (∀ i ∈ ([0, 1] : List Nat), i < e46_operators.length) ∧
    (verify_minimality e46_operators [0, 1] = true ↔
      ((generate_group (([0, 1] : List Nat).map fun i => e46_operators.getD i []) 432).length = 432 ∧
        ∀ i < ([0, 1] : List Nat).length,
          (generate_group ((([0, 1] : List Nat).eraseIdx i).map fun j =>
            e46_operators.getD j []) 432).length < 432)) :=
  ⟨e46_sub_ops_432, by norm_num, by decide,
    C6_verify_minimality e46_operators e46_sub_ops_432 [0, 1] (by norm_num) (by decide)⟩

/-- **C7**: on every raw matrix the implemented kernel-normalization
check (basis vectors plus all nonzero linear combinations) agrees with
the reduced check that tests only the two basis vectors. -/
theorem C7_normalizes_eq_basis :
    ∀ M ∈ allRawMatrices, check_normalizes_h M = check_normalizes_h_basis M :=
  fun M _ => check_normalizes_h_eq_basis M

/-- Witness for **C7** at the zero matrix. -/
theorem C7_normalizes_eq_basis_witness :
    [0, 0, 0, 0, 0, 0, 0, 0, 0] ∈ allRawMatrices ∧
    check_normalizes_h [0, 0, 0, 0, 0, 0, 0, 0, 0] =
      check_normalizes_h_basis [0, 0, 0, 0, 0, 0, 0, 0, 0] :=
  ⟨by decide, C7_normalizes_eq_basis _ (by decide)⟩

/-- **C8**: the floating-point determinant is modelled as any rational
within 1/2 of the exact integer determinant (IEEE double error on these
3×3 integer matrices is far below 1/2); rounding it recovers the exact
cofactor-expansion determinant, so the mod-3 invertibility test used by
`generate_gl3_f3` is effectively exact integer arithmetic. -/
theorem C8_det_rounding_exact (M : Matrix3) (hM : M ∈ allRawMatrices) (q : ℚ)
    (hq : |q - (det3_int M : ℚ)| < 1 / 2) :
    round q = det3_int M ∧ round q % 3 = det3_int M % 3 ∧
      (round q % 3 != 0) = isInvertible M := by
  have h := round_eq_of_close (det3_int M) q hq
  refine ⟨h, by rw [h], ?_⟩
  rw [h, isInvertible]

/-- Witness for **C8** at the zero matrix with the exact value as the
floating-point reading. -/
theorem C8_det_rounding_exact_witness :
    [0, 0, 0, 0, 0, 0, 0, 0, 0] ∈ allRawMatrices ∧
    |(0 : ℚ) - (det3_int [0, 0, 0, 0, 0, 0, 0, 0, 0] : ℚ)| < 1 / 2 ∧
    (round (0 : ℚ) = det3_int [0, 0, 0, 0, 0, 0, 0, 0, 0] ∧
      round (0 : ℚ) % 3 = det3_int [0, 0, 0, 0, 0, 0, 0, 0, 0] % 3 ∧
      (round (0 : ℚ) % 3 != 0) = isInvertible [0, 0, 0, 0, 0, 0, 0, 0, 0]) := by
  have hdet : det3_int [0, 0, 0, 0, 0, 0, 0, 0, 0] = 0 := by decide
  refine ⟨by decide, by rw [hdet]; norm_num, ?_⟩
  exact C8_det_rounding_exact _ (by decide) 0 (by rw [hdet]; norm_num)

/-- **C9**: re-running the closure on the already-closed 54-element set
with any cap ≥ 54 returns exactly that 54-element set. -/
theorem C9_closure_idempotent (cap : Nat) (hcap : 54 ≤ cap) :
    (generate_group ops_54 cap).length = 54 ∧
      ∀ M, M ∈ generate_group ops_54 cap ↔ M ∈ ops_54 := by
  rw [generate_group_54_eq]
  exact ⟨init_ops_54_length, mem_init_ops_54⟩

/-- Witness for **C9** at cap 54. -/
theorem C9_closure_idempotent_witness :
    54 ≤ 54 ∧ ((generate_group ops_54 54).length = 54 ∧
      ∀ M, M ∈ generate_group ops_54 54 ↔ M ∈ ops_54) :=
  ⟨by norm_num, C9_closure_idempotent 54 (by norm_num)⟩

/-- **C10**: evaluation of the loader at the failing inputs: a record
whose entries parse but lie outside {0,1,2} is returned as an operator
(violating the Matrix3 invariant), and a record with an unparseable
field aborts the whole load — the following well-formed record is lost —
instead of being skipped. -/
theorem C10_loader_eval :
    load_operators_108
        [[some 0, some 0, some 5, some 0, some 0, some 0, some 0, some 0, some 0, some 0]]
      = Except.ok [[0, 5, 0, 0, 0, 0, 0, 0, 0]] ∧
    (¬ ∀ x ∈ ([0, 5, 0, 0, 0, 0, 0, 0, 0] : List Int), 0 ≤ x ∧ x < 3) ∧
    load_operators_108
        [[some 0, none, some 0, some 0, some 0, some 0, some 0, some 0, some 0, some 0],
         [some 1, some 1, some 0, some 0, some 0, some 1, some 0, some 0, some 0, some 1]]
      = Except.error () := by
  refine ⟨by rfl, by decide, by rfl⟩
